import Mathlib

/-!
Verification of the TalkToMe chat backend's core streaming and acceptance
logic against its natural-language specification.

The embedding follows `src/Backend/Routers/chat_router.py` (the SSE streaming
generator `iter_sse` with its inline tag scanner, fallback coordinator and
segment ledger), `src/Backend/Routers/partner_router.py` (the acceptance
protocol around `_claim_accept` and destination-conversation resolution),
and `src/Backend/APNS/apns.py` (the partner-message notification sender).

Strings are modelled as `List Char`.  The scanner's inner `while True` loop
(`chat_router.py` lines 374-419) is embedded with an explicit fuel argument
so that it is structurally recursive and computable; each loop iteration that
recurses consumes at least 17 characters of the buffer, so `length + 1` fuel
is always sufficient (proved below as `scanLoop_fuel_irrelevant`).
-/

namespace TalkToMe

/-- The fixed start-marker literal `tag_start = "<partner_message"`
(chat_router.py line 222). -/
def tagStart : List Char := "<partner_message".data

/-- The fixed end marker `end_marker = "</partner_message>"`
(chat_router.py line 221). -/
def endMarker : List Char := "</partner_message>".data

/-- Python's `\s` character class over ASCII, as used by the regular
expression `<partner_message(?:\s+[^>]*)?>` (chat_router.py line 220). -/
def isPySpace (c : Char) : Bool :=
  c = ' ' || c = '\t' || c = '\n' || c = '\r' || c = '\x0b' || c = '\x0c'

/-- Index of the first `'>'` in a character list, if any. -/
def firstGt : List Char → Option Nat
  | [] => none
  | c :: cs => if c = '>' then some 0 else (firstGt cs).map (· + 1)

/-- One regex-match attempt of `open_pat = <partner_message(?:\s+[^>]*)?>` at
position `i` of `s`, returning the end position of the match.  The literal
must occur at `i`; the optional attribute group `\s+[^>]*` requires the next
character to be whitespace, and since `[^>]*` can never cross a `'>'`, the
match (with or without the group) always ends just past the first `'>'` at or
after position `i + 16`. -/
def matchEndAt (s : List Char) (i : Nat) : Option Nat :=
  if tagStart.isPrefixOf (s.drop i) then
    match s.drop (i + 16) with
    | [] => none
    | c :: cs =>
      if c = '>' then some (i + 16 + 1)
      else if isPySpace c then
        match firstGt cs with
        | some j => some (i + 16 + 1 + j + 1)
        | none => none
      else none
  else none

/-- Scan for the leftmost match of `open_pat`, as `re.search` does
(chat_router.py line 376); returns the match's start and end positions. -/
def goOpen (s : List Char) : Nat → Nat → Option (Nat × Nat)
  | _, 0 => none
  | i, fuel + 1 =>
    match matchEndAt s i with
    | some e => some (i, e)
    | none => goOpen s (i + 1) fuel

/-- Leftmost match of the start-marker pattern in `s`. -/
def findOpen (s : List Char) : Option (Nat × Nat) :=
  goOpen s 0 (s.length + 1)

/-- Scan for the leftmost occurrence of `endMarker`, as `str.find` does
(chat_router.py line 403). -/
def goClose (s : List Char) : Nat → Nat → Option Nat
  | _, 0 => none
  | c, fuel + 1 =>
    if endMarker.isPrefixOf (s.drop c) then some c else goClose s (c + 1) fuel

/-- Index of the leftmost occurrence of the end marker in `s`. -/
def findClose (s : List Char) : Option Nat :=
  goClose s 0 (s.length + 1)

/-- The longest `k` with `buffer.endswith(tag_start[:k])`, computed from
`max_k = min(len(buffer), len(tag_start))` downwards exactly as the loop at
chat_router.py lines 388-393 does (`k = 0` always succeeds). -/
def overlapLen (buf : List Char) : Nat :=
  (((List.range (min buf.length tagStart.length + 1)).reverse).find?
    (fun k => (tagStart.take k).isSuffixOf buf)).getD 0

/-- A span emitted by the tag scanner: plain text, or directive content.
The `marker` field of `draft` records the exact start-marker text the scanner
consumed (ghost data used only to state the round-trip property; the Python
code keeps just the boolean `in_partner`). -/
inductive Span where
  | text (s : List Char)
  | draft (marker content : List Char)
deriving DecidableEq, Repr

/-- The scanner's in-directive state: `some marker` when inside a directive
(the recorded ghost marker), `none` otherwise.  Corresponds to the boolean
`in_partner` of chat_router.py line 225. -/
abbrev InPartner := Option (List Char)

/-- The inner `while True` buffer-processing loop of `iter_sse`
(chat_router.py lines 374-419), with explicit fuel.  Returns the spans
emitted (in order) together with the updated `in_partner` flag and buffer.

* not in directive, `open_pat` match: flush the text before the match, drop
  the marker, enter the directive, continue (lines 376-385);
* not in directive, no match: flush all but the longest buffer suffix that is
  a prefix of `tag_start`, then break (lines 386-401);
* in directive, no end marker: retain the whole buffer, break (lines 403-406);
* in directive, end marker found: emit the content before it as a directive
  span, consume through the marker, leave the directive, continue
  (lines 407-419). -/
def scanLoop : Nat → InPartner → List Char → List Span × InPartner × List Char
  | 0, inP, buf => ([], inP, buf)
  | fuel + 1, none, buf =>
    match findOpen buf with
    | some (i, e) =>
      let r := scanLoop fuel (some ((buf.drop i).take (e - i))) (buf.drop e)
      ((if (buf.take i).isEmpty then r.1 else .text (buf.take i) :: r.1), r.2)
    | none =>
      let flushLen := buf.length - overlapLen buf
      if flushLen = 0 then ([], none, buf)
      else ([.text (buf.take flushLen)], none, buf.drop flushLen)
  | fuel + 1, some marker, buf =>
    match findClose buf with
    | none => ([], some marker, buf)
    | some c =>
      let r := scanLoop fuel none (buf.drop (c + endMarker.length))
      (.draft marker (buf.take c) :: r.1, r.2)

/-- Run the buffer-processing loop to completion (`length + 1` fuel always
suffices, see `scanLoop_fuel_irrelevant`). -/
def processBuffer (inP : InPartner) (buf : List Char) :
    List Span × InPartner × List Char :=
  scanLoop (buf.length + 1) inP buf

/-- The scanner state carried across deltas of one stream. -/
structure ScanState where
  inPartner : InPartner
  buffer : List Char
deriving DecidableEq, Repr

/-- Handling of one `("delta", payload)` queue message (chat_router.py lines
369-372): append the delta to the buffer and process it. -/
def feedDelta (st : ScanState) (d : List Char) : List Span × ScanState :=
  let r := processBuffer st.inPartner (st.buffer ++ d)
  (r.1, ⟨r.2.1, r.2.2⟩)

/-- Feed a sequence of deltas through the scanner, accumulating spans. -/
def scanDeltas : List (List Char) → ScanState → List Span × ScanState
  | [], st => ([], st)
  | d :: ds, st =>
    let r1 := feedDelta st d
    let r2 := scanDeltas ds r1.2
    (r1.1 ++ r2.1, r2.2)

/-- Scan a whole delta sequence from the initial state
(`buffer = ""`, `in_partner = False`, chat_router.py lines 224-225). -/
def scanAll (ds : List (List Char)) : List Span × ScanState :=
  scanDeltas ds ⟨none, []⟩

/-- The end-of-stream flush (chat_router.py lines 421-427): any pending
buffered text, including partial tags, is emitted as plain text. -/
def finalSpans (ds : List (List Char)) : List Span :=
  (scanAll ds).1 ++
    (if (scanAll ds).2.buffer.isEmpty then [] else [.text (scanAll ds).2.buffer])

/-- Reconstruction of one span: text verbatim; a directive span wrapped in
the start marker the scanner consumed and the end marker. -/
def reconSpan : Span → List Char
  | .text s => s
  | .draft marker content => marker ++ content ++ endMarker

/-- Reconstruction of a span list (the round-trip reading of the spec). -/
def recon (l : List Span) : List Char :=
  (l.map reconSpan).flatten

/-- The unflushed input still owed by a scanner state: the consumed start
marker (when inside a directive) followed by the retained buffer. -/
def ctxOf (inP : InPartner) (buf : List Char) : List Char :=
  inP.getD [] ++ buf

/-! ## SSE frames, segments, fallback, and the consumer loop -/

/-- The SSE frames `iter_sse` yields (chat_router.py lines 198-442).
Comment-only heartbeat lines (`yield b":\n\n"`, line 296) and the padding
prelude (line 200) are not modelled: they carry no event.  The heartbeat
branch's opportunistic flush (lines 280-294) runs the same overlap
computation as the delta branch, and after each processed delta the buffer
is already reduced to its marker-prefix suffix, so that flush never emits
anything and the frame sequence is unchanged by heartbeats. -/
inductive Frame where
  | session (s : List Char)
  | responseId (s : List Char)
  | token (s : List Char)
  | toolStart
  | partnerMessage (s : List Char)
  | toolDone
  | done
  | errorF (s : List Char)
deriving DecidableEq, Repr

/-- Frames emitted for one scanner span: a `token` frame for flushed text
(lines 381, 398, 425), and the three-frame tool envelope for a directive
(lines 408-410). -/
def framesOfSpan : Span → List Frame
  | .text s => [.token s]
  | .draft _ content => [.toolStart, .partnerMessage content, .toolDone]

/-- Frames for a span sequence, in order. -/
def framesOfSpans (l : List Span) : List Frame :=
  (l.map framesOfSpan).flatten

/-- A persisted segment (the `segments_list` entries of chat_router.py
lines 357, 359, 413, 415, 431). -/
inductive Segment where
  | text (content : List Char)
  | partnerDraft (t : List Char)
deriving DecidableEq, Repr

/-- The segment ledger: accumulate text spans into `current_text_segment`,
flushing it before each directive segment (lines 412-415) and at the end of
the stream (lines 430-432).  `acc` is `current_text_segment`. -/
def buildSegs : List Span → List Char → List Segment
  | [], acc => if acc.isEmpty then [] else [.text acc]
  | .text s :: rest, acc => buildSegs rest (acc ++ s)
  | .draft _ content :: rest, acc =>
    (if acc.isEmpty then [] else [.text acc]) ++
      .partnerDraft content :: buildSegs rest []

/-- `final_text`: the concatenation of `full_text_parts` (every flushed text
span, chat_router.py line 434). -/
def finalTextOf (spans : List Span) : List Char :=
  (spans.filterMap (fun sp => match sp with
    | .text s => some s
    | .draft _ _ => none)).flatten

/-- Python's `str.strip()` on ASCII whitespace. -/
def pyStrip (s : List Char) : List Char :=
  ((s.dropWhile isPySpace).reverse.dropWhile isPySpace).reverse

/-- `persist_stream_results` (chat_router.py lines 174-196): persist the
segment list if non-empty, otherwise a single text segment holding the
stripped final text if that is non-empty, otherwise nothing. -/
def persistedSegments (spans : List Span) : Option (List Segment) :=
  let segs := buildSegs spans []
  if segs.isEmpty then
    let ft := pyStrip (finalTextOf spans)
    if ft.isEmpty then none else some [Segment.text ft]
  else some segs

/-- The fallback re-scan loop over the full non-streamed text
(chat_router.py lines 328-361), with explicit fuel.  Unlike the streaming
scanner, an unterminated directive here flushes the remainder from the
marker's start (marker included) as plain text (lines 344-350). -/
def fbLoop : Nat → List Char → List Span
  | 0, _ => []
  | fuel + 1, t =>
    match findOpen t with
    | none => if t.isEmpty then [] else [.text t]
    | some (i, e) =>
      let pre : List Span := if (t.take i).isEmpty then [] else [.text (t.take i)]
      match findClose (t.drop e) with
      | none => pre ++ [.text (t.drop i)]
      | some c =>
        pre ++ .draft ((t.drop i).take (e - i)) ((t.drop e).take c) ::
          fbLoop fuel (t.drop (e + c + endMarker.length))

/-- Run the fallback re-scan to completion. -/
def fallbackScan (t : List Char) : List Span :=
  fbLoop (t.length + 1) t

/-- A typed message pushed by the producer thread onto the queue
(chat_router.py lines 232-266): `("response_id", payload)`,
`("delta", delta)`, or `("error", message)`.  The producer `return`s right
after putting an error (line 262), so in any producer-generated event list
an error is the last event. -/
inductive PEvent where
  | rid (s : List Char)
  | delta (s : List Char)
  | perror (s : List Char)
deriving DecidableEq, Repr

/-- Whether an event is a producer error. -/
def PEvent.isErr : PEvent → Bool
  | .perror _ => true
  | _ => false

/-- The result of the one synchronous fallback call
`chat_agent.create_response` (chat_router.py lines 311-326): `none` when the
call raises, otherwise the optional response id and the full output text. -/
abbrev FallbackResult := Option (Option (List Char) × List Char)

/-- Output of the consumer loop: the SSE frames yielded, the spans emitted
(streaming and fallback alike, feeding `segments_list`/`full_text_parts`),
the final scanner state, and how many fallback calls were made. -/
structure ConsumeOut where
  frames : List Frame
  spans : List Span
  state : ScanState
  fbCalls : Nat
deriving DecidableEq, Repr

/-- The consumer loop of `iter_sse` (chat_router.py lines 273-439) over the
producer's queue messages.

* end of events (producer finished, queue drained, lines 277-278 then
  421-439): flush the remaining buffer as a `token`, close with `done`;
* `response_id`: forward the frame (lines 299-301);
* `delta`: run the tag scanner, forward its frames (lines 369-419);
* `error` with a successful fallback: forward the fallback's optional
  response id and re-scanned frames, then continue the loop (lines 307-367);
* `error` with the fallback raising: yield an `error` frame carrying the
  original producer message (line 365) and `break` (line 366) — after which
  the code after the loop (lines 421-439) still runs, flushing the buffer
  and yielding `done`. -/
def consume (fb : FallbackResult) : List PEvent → ScanState → ConsumeOut
  | [], st =>
    let extra : List Span := if st.buffer.isEmpty then [] else [.text st.buffer]
    { frames := framesOfSpans extra ++ [.done], spans := extra,
      state := ⟨st.inPartner, []⟩, fbCalls := 0 }
  | .rid r :: rest, st =>
    let o := consume fb rest st
    { o with frames := .responseId r :: o.frames }
  | .delta d :: rest, st =>
    let r := feedDelta st d
    let o := consume fb rest r.2
    { frames := framesOfSpans r.1 ++ o.frames, spans := r.1 ++ o.spans,
      state := o.state, fbCalls := o.fbCalls }
  | .perror m :: rest, st =>
    match fb with
    | some (ridOpt, text) =>
      let fspans := fallbackScan text
      let o := consume fb rest st
      { frames := (match ridOpt with
          | some r => [Frame.responseId r]
          | none => []) ++ framesOfSpans fspans ++ o.frames,
        spans := fspans ++ o.spans, state := o.state, fbCalls := o.fbCalls + 1 }
    | none =>
      let extra : List Span := if st.buffer.isEmpty then [] else [.text st.buffer]
      { frames := .errorF m :: (framesOfSpans extra ++ [.done]), spans := extra,
        state := ⟨st.inPartner, []⟩, fbCalls := 1 }

/-- The full frame sequence of one stream: the `session` frame
(chat_router.py lines 202-203) followed by the consumer loop's frames. -/
def iterSSE (sid : List Char) (fb : FallbackResult) (events : List PEvent) :
    List Frame :=
  .session sid :: (consume fb events ⟨none, []⟩).frames

/-! ## The acceptance protocol (partner_router.py)

Session, message and request identities are modelled as `Nat`; fresh ids are
drawn from a counter.  The persistence collaborators (`create_session`,
`save_message`, `delete_session`, spec §6) are embedded as state effects. -/

/-- The status enum of a `PendingRequest` (spec §3). -/
inductive RStatus where
  | pending
  | delivered
  | accepted
deriving DecidableEq, Repr

/-- A partner-request record as stored in the `partner_requests` table, with
the fields the routers read and write. -/
structure ReqRecord where
  recipientUserId : Nat
  senderUserId : Nat
  senderSessionId : Nat
  content : List Char
  status : RStatus
  recipientSessionId : Option Nat
  createdMessageId : Option Nat
  acceptedAt : Option Nat
deriving DecidableEq, Repr

/-- A `linked_sessions` mapping row (`(relationship, source_conversation) →
destination_conversation`, spec §3 ConversationLink). -/
structure LinkedRow where
  userAId : Nat
  userBId : Nat
  userASession : Option Nat
  userBSession : Option Nat
deriving DecidableEq, Repr

/-- The world state the acceptance operations act on: the request record,
the (unique) mapping row for its (relationship, source-session) key, the
source session's title as read by `get_session_by_id` (`none` models a
failed lookup, partner_router.py lines 186-190), a fresh-id counter, and
logs of created sessions, deleted sessions and saved messages. -/
structure PState where
  req : ReqRecord
  link : Option LinkedRow
  srcTitle : Option (List Char)
  nextId : Nat
  createdSessions : List (Nat × List Char)
  deletedSessions : List Nat
  savedMessages : List (Nat × List Char)
deriving DecidableEq, Repr

/-- The title given to a newly created destination conversation:
`mirrored_title or "New Chat"` (partner_router.py lines 188-192; Python
treats an empty title as falsy). -/
def mirrorTitle (t : Option (List Char)) : List Char :=
  match t with
  | some s => if s.isEmpty then "New Chat".data else s
  | none => "New Chat".data

/-- Modelled from the spec: `update_linked_session_partner_session_for_source`
(Database/linked_sessions_repo.py is not under src/).  Per spec §4.5
("attempt to record it as the mapping's destination") it records the given
session as the mapping row's destination (`user_b_personal_session_id`, the
field the caller re-reads at partner_router.py line 201); updating a missing
row is a no-op. -/
def updateLinkDestination (link : Option LinkedRow) (sid : Nat) :
    Option LinkedRow :=
  link.map (fun row => { row with userBSession := some sid })

/-- `_claim_accept` (partner_router.py lines 213-225): conditionally update
the request to `accepted`, setting `accepted_at` and
`recipient_session_id`, only when the current status is in
`{pending, delivered}`.  The boolean reports whether a row was updated
(`updated_rows`, lines 228-231). -/
def claimAccept (req : ReqRecord) (now sid : Nat) : ReqRecord × Bool :=
  if req.status = .pending ∨ req.status = .delivered then
    ({ req with
        status := .accepted
        acceptedAt := some now
        recipientSessionId := some sid }, true)
  else (req, false)

/-- Modelled from the spec: `mark_delivered` (Database/partner_requests_repo.py
is not under src/).  Spec §4.5 makes `delivered` an optional, monotonic,
pre-acceptance step, so it is the pending → delivered transition. -/
def markDelivered (req : ReqRecord) : ReqRecord :=
  if req.status = .pending then { req with status := .delivered } else req

/-- Modelled from the spec: `attach_session_and_message_on_pending`
(Database/partner_requests_repo.py is not under src/).  Per its name and its
call site (partner_router.py lines 402-435: "Create recipient session now and
attach the partner message to it, while keeping request pending") it records
the recipient session id and created message id on the request without
changing its status. -/
def attachOnPending (req : ReqRecord) (sid mid : Nat) : ReqRecord :=
  { req with
      recipientSessionId := some sid
      createdMessageId := some mid }

/-- Modelled from the spec: `mark_accepted_and_attach`
(Database/partner_requests_repo.py is not under src/).  Called by the accept
finalizer (partner_router.py lines 257-261) after the claim succeeded: it
attaches the created message id (and the recipient session) with `accepted`
status. -/
def markAcceptedAndAttach (req : ReqRecord) (sid mid : Nat) : ReqRecord :=
  { req with
      status := .accepted
      recipientSessionId := some sid
      createdMessageId := some mid }

/-- Destination-conversation resolution (partner_router.py lines 162-210):
read the mapping row and pick the side opposite the sender; if no destination
is mapped, create a new conversation mirroring the source title, record it as
the mapping's destination, re-read the mapping, and if a different
destination won the race delete the speculative conversation and use the
winner's id.  `raceWrite` models a concurrent writer recording its own
destination between our write and our re-read (spec §3: last writer defined
by a re-read after write). -/
def resolveRecipientSession (st : PState) (raceWrite : Option Nat) :
    Nat × PState :=
  let recipStr : Option Nat :=
    match st.link with
    | some row =>
      if row.userAId = st.req.senderUserId then row.userBSession
      else row.userASession
    | none => none
  match recipStr with
  | some sid => (sid, st)
  | none =>
    let cand := st.nextId
    let st1 : PState :=
      { st with
          nextId := st.nextId + 1
          createdSessions := st.createdSessions ++ [(cand, mirrorTitle st.srcTitle)] }
    let link1 := updateLinkDestination st1.link cand
    let link2 :=
      match raceWrite with
      | some w => updateLinkDestination link1 w
      | none => link1
    let st2 := { st1 with link := link2 }
    match st2.link.bind LinkedRow.userBSession with
    | some f =>
      if f ≠ cand then
        (f, { st2 with deletedSessions := st2.deletedSessions ++ [cand] })
      else (cand, st2)
    | none => (cand, st2)

/-- The accept finalizer `_finalize_acceptance` (partner_router.py lines
238-263), run by the winner: if a message was already pre-created it only
refreshes session metadata; otherwise it saves the forwarded message into
the destination conversation and attaches the created message id. -/
def finalizeAcceptance (st : PState) (recipSid : Nat) : PState :=
  match st.req.createdMessageId with
  | some _ => st
  | none =>
    let mid := st.nextId
    { st with
        nextId := st.nextId + 1
        savedMessages := st.savedMessages ++ [(recipSid, st.req.content)]
        req := markAcceptedAndAttach st.req recipSid mid }

deriving instance DecidableEq for Except

/-- Result of one accept call: the HTTP-level outcome (`.error ()` is the
404), the post-state, and whether this call won the claim. -/
structure AcceptOut where
  result : Except Unit Nat
  state : PState
  won : Bool
deriving DecidableEq, Repr

/-- Interference of a concurrent accepter: its `_claim_accept` (with its own
destination session) lands on the record just before ours runs; `none` means
no interference. -/
def raceApply (ra : Option Nat) (req : ReqRecord) (now : Nat) : ReqRecord :=
  match ra with
  | some s2 => (claimAccept req now s2).1
  | none => req

/-- `accept_request_endpoint` (partner_router.py lines 139-269): 404 unless
the caller is the recipient; idempotent early return when already accepted
with a destination attached (lines 150-157); otherwise resolve the
destination conversation, run the `_claim_accept` compare-and-swap, and
either finalize (winner) or return the resolved id without writing a message
(lines 233-235).  `raceWrite` is passed to resolution; `raceAccept` models a
concurrent accepter whose claim lands just before ours. -/
def accept (st : PState) (callerId now : Nat)
    (raceWrite raceAccept : Option Nat) : AcceptOut :=
  if st.req.recipientUserId ≠ callerId then ⟨.error (), st, false⟩
  else if h : st.req.status = .accepted ∧ st.req.recipientSessionId.isSome then
    ⟨.ok (st.req.recipientSessionId.get h.2), st, false⟩
  else
    let r := resolveRecipientSession st raceWrite
    let req1 := raceApply raceAccept r.2.req now
    let c := claimAccept req1 now r.1
    if c.2 then ⟨.ok r.1, finalizeAcceptance { r.2 with req := c.1 } r.1, true⟩
    else ⟨.ok r.1, { r.2 with req := c.1 }, false⟩

/-- The request-mode delivery block of the partner streaming endpoint's
`iter_sse` (partner_router.py lines 401-435): create the recipient session
(mirroring the source title), record it on the mapping, save the partner
message into it, and attach session and message to the still-pending
request via `attach_session_and_message_on_pending`. -/
def partnerStreamAttach (st : PState) : PState :=
  let cand := st.nextId
  let st1 : PState :=
    { st with
        nextId := st.nextId + 1
        createdSessions := st.createdSessions ++ [(cand, mirrorTitle st.srcTitle)] }
  let st2 := { st1 with link := updateLinkDestination st1.link cand }
  let mid := st2.nextId
  let st3 : PState :=
    { st2 with
        nextId := st2.nextId + 1
        savedMessages := st2.savedMessages ++ [(cand, st2.req.content)] }
  { st3 with req := attachOnPending st3.req cand mid }

/-- The operations that touch a `PendingRequest` record. -/
inductive POp where
  | opMarkDelivered
  | opStreamAttach
  | opAccept (callerId now : Nat) (raceWrite raceAccept : Option Nat)
deriving DecidableEq, Repr

/-- Apply one operation to the world state. -/
def applyOp (st : PState) : POp → PState
  | .opMarkDelivered => { st with req := markDelivered st.req }
  | .opStreamAttach => partnerStreamAttach st
  | .opAccept callerId now rw ra => (accept st callerId now rw ra).state

/-- Whether an operation is an accept call that wins the claim. -/
def opWin (st : PState) : POp → Nat
  | .opAccept callerId now rw ra => if (accept st callerId now rw ra).won then 1 else 0
  | _ => 0

/-- Number of successful (winning) accepts along an operation sequence. -/
def winCount : PState → List POp → Nat
  | _, [] => 0
  | st, op :: ops => opWin st op + winCount (applyOp st op) ops

/-- Rank of a status along the pending → delivered → accepted order. -/
def statusRank : RStatus → Nat
  | .pending => 0
  | .delivered => 1
  | .accepted => 2

/-! ## APNs partner-message notification (apns.py) -/

/-- One row returned by `list_tokens_for_user`: the optional token value and
the enabled flag (default true), as read at apns.py lines 253-254. -/
structure TokenEntry where
  token : Option (List Char)
  enabled : Bool
deriving DecidableEq, Repr

/-- The per-token loop of `send_partner_message_notification_to_user`
(apns.py lines 252-260), returning the device tokens POSTed to APNs.  Each
iteration either skips an invalid or disabled entry (logging only, lines
255-259) or — the loop body containing no further statements — does nothing:
no `_post_apns` call occurs on any path (contrast the request-notification
loop at lines 182-216 and the daily-checkin loop at lines 283-310, which do
post). -/
def pmnLoop : List TokenEntry → List (List Char)
  | [] => []
  | t :: rest =>
    if t.token.isNone || t.enabled = false then
      pmnLoop rest
    else
      pmnLoop rest

/-- `send_partner_message_notification_to_user` (apns.py lines 219-260),
modelling the APNs posts it performs; the recipient, session id and preview
parameters are carried but only ever used to build the (never-sent) payload
and logs. -/
def sendPartnerMessageNotificationToUser (recipientUserId sessionId : Nat)
    (preview : List Char) (tokens : List TokenEntry) : List (List Char) :=
  match tokens with
  | [] => []
  | _ => pmnLoop tokens

/-- A concrete pending request used to instantiate the acceptance theorems. -/
def sampleReq : ReqRecord :=
  { recipientUserId := 1
    senderUserId := 2
    senderSessionId := 10
    content := "call mom".data
    status := .pending
    recipientSessionId := none
    createdMessageId := none
    acceptedAt := none }

/-- A concrete world state around `sampleReq`: a mapping row created by the
request flow (sender is user A, source session recorded, no destination
yet). -/
def sampleState : PState :=
  { req := sampleReq
    link := some
      { userAId := 2, userBId := 1, userASession := some 10, userBSession := none }
    srcTitle := some "Trip".data
    nextId := 100
    createdSessions := []
    deletedSessions := []
    savedMessages := [] }

/-- `sampleState` after an external accept already landed: status `accepted`
with destination conversation 55 attached. -/
def sampleAcceptedState : PState :=
  { sampleState with
      req :=
        { sampleReq with status := .accepted, recipientSessionId := some 55, acceptedAt := some 3 } }

/-! ## Lemmas: the scanner's searching primitives -/

theorem tagStart_length : tagStart.length = 16 := rfl

theorem endMarker_length : endMarker.length = 18 := rfl

theorem firstGt_lt_length {l : List Char} {j : Nat} (h : firstGt l = some j) :
    j < l.length := by
  induction l generalizing j with
  | nil => simp [firstGt] at h
  | cons c cs ih =>
    by_cases hc : c = '>'
    · simp [firstGt, hc] at h
      simp only [List.length_cons]
      omega
    · simp only [firstGt, if_neg hc, Option.map_eq_some'] at h
      obtain ⟨a, ha, rfl⟩ := h
      have := ih ha
      simp only [List.length_cons]
      omega

theorem matchEndAt_bounds {s : List Char} {i e : Nat}
    (h : matchEndAt s i = some e) : i + 17 ≤ e ∧ e ≤ s.length := by
  unfold matchEndAt at h
  split at h
  case isFalse => exact absurd h (by simp)
  case isTrue hp =>
    have hlen : 16 ≤ (s.drop i).length := by
      have := (List.isPrefixOf_iff_prefix.mp hp).length_le
      simpa [tagStart_length] using this
    have hdi : (s.drop i).length = s.length - i := by simp
    split at h
    case h_1 => exact absurd h (by simp)
    case h_2 c cs hd =>
      have hcs : s.length - (i + 16) = cs.length + 1 := by
        have := congrArg List.length hd
        simpa using this
      split at h
      · have he : e = i + 16 + 1 := by
          have := Option.some.inj h
          omega
        omega
      · split at h
        · split at h
          case h_1 j hg =>
            have hj : j < cs.length := firstGt_lt_length hg
            have he : e = i + 16 + 1 + j + 1 := by
              have := Option.some.inj h
              omega
            omega
          case h_2 => exact absurd h (by simp)
        · exact absurd h (by simp)

theorem goOpen_matchEnd {s : List Char} :
    ∀ fuel i j e, goOpen s i fuel = some (j, e) → matchEndAt s j = some e := by
  intro fuel
  induction fuel with
  | zero => intro i j e h; simp [goOpen] at h
  | succ n ih =>
    intro i j e h
    unfold goOpen at h
    split at h
    case h_1 e' hm =>
      obtain ⟨rfl, rfl⟩ := Prod.mk.inj (Option.some.inj h)
      exact hm
    case h_2 => exact ih _ _ _ h

theorem findOpen_bounds {s : List Char} {i e : Nat}
    (h : findOpen s = some (i, e)) : i + 17 ≤ e ∧ e ≤ s.length :=
  matchEndAt_bounds (goOpen_matchEnd _ _ _ _ h)

theorem goClose_isPrefixOf {s : List Char} :
    ∀ fuel c c', goClose s c fuel = some c' →
      endMarker.isPrefixOf (s.drop c') = true := by
  intro fuel
  induction fuel with
  | zero => intro c c' h; simp [goClose] at h
  | succ n ih =>
    intro c c' h
    unfold goClose at h
    split at h
    case isTrue hp => cases Option.some.inj h; exact hp
    case isFalse => exact ih _ _ h

theorem findClose_decomp {s : List Char} {c : Nat} (h : findClose s = some c) :
    s.take c ++ endMarker ++ s.drop (c + endMarker.length) = s ∧
      c + endMarker.length ≤ s.length := by
  have hp := List.isPrefixOf_iff_prefix.mp (goClose_isPrefixOf _ _ _ h)
  obtain ⟨t, ht⟩ := hp
  have hdlen : (s.drop c).length = s.length - c := by simp
  have hlen : 18 ≤ (s.drop c).length := by
    have : endMarker.length ≤ (s.drop c).length := by
      rw [← ht]; simp
    simpa [endMarker_length] using this
  have hdt : s.drop (c + endMarker.length) = t := by
    rw [← List.drop_drop, ← ht, List.drop_left]
  constructor
  · rw [hdt, List.append_assoc, ht, List.take_append_drop]
  · rw [endMarker_length]; omega

theorem take_slice_drop {s : List Char} {i e : Nat} (hie : i ≤ e) :
    s.take i ++ ((s.drop i).take (e - i) ++ s.drop e) = s := by
  have h1 : (s.drop i).drop (e - i) = s.drop e := by
    rw [List.drop_drop]
    congr 1
    omega
  conv_lhs => rw [← h1]
  rw [List.take_append_drop, List.take_append_drop]

/-! ## Lemmas: reconstruction (the round-trip invariant) -/

theorem recon_nil : recon [] = [] := rfl

theorem recon_cons (x : Span) (l : List Span) :
    recon (x :: l) = reconSpan x ++ recon l := by simp [recon]

theorem recon_append (l1 l2 : List Span) :
    recon (l1 ++ l2) = recon l1 ++ recon l2 := by simp [recon]

/-- Each pass of the buffer-processing loop conserves input: the
reconstruction of the spans it emits, followed by the unflushed context of
its final state, is the unflushed context it started from.  Holds for every
fuel value. -/
theorem scanLoop_recon (fuel : Nat) :
    ∀ (inP : InPartner) (buf : List Char),
      recon (scanLoop fuel inP buf).1 ++
        ctxOf (scanLoop fuel inP buf).2.1 (scanLoop fuel inP buf).2.2 =
      ctxOf inP buf := by
  induction fuel with
  | zero => intro inP buf; simp [scanLoop, recon]
  | succ n ih =>
    intro inP buf
    match inP with
    | none =>
      cases hfo : findOpen buf with
      | some ie =>
        obtain ⟨i, e⟩ := ie
        obtain ⟨hb1, hb2⟩ := findOpen_bounds hfo
        have hdec := take_slice_drop (s := buf) (i := i) (e := e) (by omega)
        have hih := ih (some ((buf.drop i).take (e - i))) (buf.drop e)
        simp only [scanLoop, hfo]
        by_cases hemp : (buf.take i).isEmpty
        · have hnil : buf.take i = [] := List.isEmpty_iff.mp hemp
          rw [if_pos hemp, hih]
          simp only [ctxOf, Option.getD_some, Option.getD_none, List.nil_append]
          conv_rhs => rw [← hdec]
          rw [hnil, List.nil_append]
        · rw [if_neg hemp, recon_cons, List.append_assoc, hih]
          simp only [ctxOf, Option.getD_some, Option.getD_none, List.nil_append,
            reconSpan]
          exact hdec
      | none =>
        simp only [scanLoop, hfo]
        by_cases hf : buf.length - overlapLen buf = 0
        · rw [if_pos hf]; simp [recon]
        · rw [if_neg hf]
          simp only [ctxOf, Option.getD_none, List.nil_append, recon_cons,
            recon_nil, reconSpan, List.append_nil]
          exact List.take_append_drop _ _
    | some marker =>
      cases hfc : findClose buf with
      | none => simp only [scanLoop, hfc]; simp [recon]
      | some c =>
        obtain ⟨hdec, hble⟩ := findClose_decomp hfc
        have hih := ih none (buf.drop (c + endMarker.length))
        simp only [scanLoop, hfc, recon_cons, reconSpan]
        rw [List.append_assoc, hih]
        simp only [ctxOf, Option.getD_some, Option.getD_none, List.nil_append]
        conv_rhs => rw [← hdec]
        simp [List.append_assoc]

/-- Conservation across a whole delta sequence. -/
theorem scanDeltas_recon (ds : List (List Char)) :
    ∀ st : ScanState,
      recon (scanDeltas ds st).1 ++
        ctxOf (scanDeltas ds st).2.inPartner (scanDeltas ds st).2.buffer =
      ctxOf st.inPartner st.buffer ++ ds.flatten := by
  induction ds with
  | nil => intro st; simp [scanDeltas, recon]
  | cons d ds ih =>
    intro st
    have h1 : recon (feedDelta st d).1 ++
        ctxOf (feedDelta st d).2.inPartner (feedDelta st d).2.buffer =
        ctxOf st.inPartner st.buffer ++ d := by
      have := scanLoop_recon ((st.buffer ++ d).length + 1) st.inPartner
        (st.buffer ++ d)
      simpa [feedDelta, processBuffer, ctxOf, List.append_assoc] using this
    simp only [scanDeltas, recon_append, List.flatten_cons]
    rw [List.append_assoc, ih ((feedDelta st d).2)]
    rw [← List.append_assoc, h1, List.append_assoc]

/-- The fuel `buf.length + 1` used by `processBuffer` is not a semantic
restriction: any fuel exceeding the buffer length computes the same result,
since every recursive pass strictly shrinks the buffer. -/
theorem scanLoop_fuel_irrelevant :
    ∀ (f g : Nat) (inP : InPartner) (buf : List Char), buf.length < f →
      buf.length < g → scanLoop f inP buf = scanLoop g inP buf := by
  intro f
  induction f with
  | zero => intro g inP buf hf; exact absurd hf (Nat.not_lt_zero _)
  | succ n ih =>
    intro g inP buf hf hg
    obtain ⟨m, rfl⟩ : ∃ m, g = m + 1 := ⟨g - 1, by omega⟩
    match inP with
    | none =>
      cases hfo : findOpen buf with
      | some ie =>
        obtain ⟨i, e⟩ := ie
        obtain ⟨hb1, hb2⟩ := findOpen_bounds hfo
        have hlt1 : (buf.drop e).length < n := by
          rw [List.length_drop]; omega
        have hlt2 : (buf.drop e).length < m := by
          rw [List.length_drop]; omega
        simp only [scanLoop, hfo]
        rw [ih m _ _ hlt1 hlt2]
      | none => simp only [scanLoop, hfo]
    | some marker =>
      cases hfc : findClose buf with
      | none => simp only [scanLoop, hfc]
      | some c =>
        obtain ⟨_, hble⟩ := findClose_decomp hfc
        rw [endMarker_length] at hble
        have hlt1 : (buf.drop (c + endMarker.length)).length < n := by
          rw [List.length_drop, endMarker_length]; omega
        have hlt2 : (buf.drop (c + endMarker.length)).length < m := by
          rw [List.length_drop, endMarker_length]; omega
        simp only [scanLoop, hfc]
        rw [ih m _ _ hlt1 hlt2]

/-! ## Claim C2: the round-trip property -/

/-- C2 (counterexample).  The claim asserts the round-trip property "for all
inputs, including a stream that ends while inside an open directive"; it
fails on exactly that case.  For the single-delta stream
`"x<partner_message>hi"` the scanner consumes the start marker (line 383 of
chat_router.py drops it from the buffer), records only `in_partner = True`,
and the end-of-stream flush (lines 422-427) emits just `"hi"`: the marker
text is lost, so no re-insertion of markers can reproduce the input. -/
theorem c2_roundtrip_cex :
    recon (finalSpans ["x<partner_message>hi".data]) ≠
      ["x<partner_message>hi".data].flatten := by decide

/-- C2 (amended).  For every delta sequence that does not end inside an open
directive, concatenating the emitted plain-text spans in order, with each
directive-content span re-inserted wrapped in the exact start marker the
scanner consumed and the end marker, reproduces the concatenation of the
input deltas.  (When the stream does end inside an open directive, the
consumed start marker is dropped and only the directive content is flushed
as text.) -/
theorem c2_roundtrip (ds : List (List Char))
    (h : (scanAll ds).2.inPartner = none) :
    recon (finalSpans ds) = ds.flatten := by
  have hinv := scanDeltas_recon ds ⟨none, []⟩
  simp only [scanAll] at h
  rw [h] at hinv
  simp only [ctxOf, Option.getD_none, List.nil_append] at hinv
  simp only [finalSpans, scanAll, recon_append]
  by_cases hb : (scanDeltas ds ⟨none, []⟩).2.buffer.isEmpty
  · have hnil : (scanDeltas ds ⟨none, []⟩).2.buffer = [] := List.isEmpty_iff.mp hb
    rw [if_pos hb]
    rw [hnil, List.append_nil] at hinv
    simpa [recon] using hinv
  · rw [if_neg hb]
    simpa [recon_cons, recon, reconSpan] using hinv

/-- C2 (witness for the amended theorem): a concrete stream with a directive
split across deltas, ending outside any directive. -/
theorem c2_roundtrip_witness :
    (scanAll ["a<partner_message>x</partner_".data, "message>b".data]).2.inPartner
        = none ∧
      recon (finalSpans ["a<partner_message>x</partner_".data, "message>b".data]) =
        ["a<partner_message>x</partner_".data, "message>b".data].flatten :=
  ⟨by decide, c2_roundtrip _ (by decide)⟩

/-! ## Claim C3: start markers split across deltas -/

/-- C3 (counterexample).  The claim asserts split-marker detection "at any
split point, with or without attributes".  For the attributed marker split
inside its attribute section — deltas `"<partner_message a"` then
`"b>hi</partner_message>"` — the overlap retention (chat_router.py lines
386-400) only keeps suffixes of the 16-character literal `tag_start`, so the
first fragment is flushed as a `token` frame and no directive is ever
detected: the whole input, marker and content included, is emitted as plain
`token` frames. -/
theorem c3_attr_split_cex :
    framesOfSpans (finalSpans
        ["<partner_message a".data, "b>hi</partner_message>".data]) =
      [.token "<partner_message a".data,
        .token "b>hi</partner_message>".data] := by decide

theorem matchEndAt_none_of_short {s : List Char} (h : s.length ≤ 16)
    (i : Nat) : matchEndAt s i = none := by
  unfold matchEndAt
  split
  case isTrue =>
    have hd : s.drop (i + 16) = [] := List.drop_eq_nil_of_le (by omega)
    rw [hd]
  case isFalse => rfl

theorem goOpen_none {s : List Char} (h : ∀ i, matchEndAt s i = none) :
    ∀ (fuel i : Nat), goOpen s i fuel = none := by
  intro fuel
  induction fuel with
  | zero => intro i; rfl
  | succ f ih =>
    intro i
    unfold goOpen
    rw [h i]
    exact ih (i + 1)

theorem findOpen_of_short {s : List Char} (h : s.length ≤ 16) :
    findOpen s = none :=
  goOpen_none (matchEndAt_none_of_short h) _ 0

theorem overlapLen_tagStart_take {k : Nat} (h : k ≤ 16) :
    overlapLen (tagStart.take k) = (tagStart.take k).length := by
  have hlen : (tagStart.take k).length = k := by
    rw [List.length_take, tagStart_length]
    omega
  unfold overlapLen
  rw [hlen, tagStart_length, Nat.min_eq_left h]
  have hrange : (List.range (k + 1)).reverse = k :: (List.range k).reverse := by
    simp [List.range_succ]
  have hsuf : (tagStart.take k).isSuffixOf (tagStart.take k) = true :=
    List.isSuffixOf_iff_suffix.mpr (List.suffix_refl _)
  rw [hrange]
  simp [List.find?, hsuf]

theorem scanLoop_no_flush (fuel : Nat) {buf : List Char}
    (h1 : findOpen buf = none) (h2 : overlapLen buf = buf.length) :
    scanLoop (fuel + 1) none buf = ([], none, buf) := by
  unfold scanLoop
  rw [h1]
  simp [h2]

theorem scanLoop_empty_buffer : ∀ fuel : Nat,
    scanLoop fuel none [] = ([], none, []) := by
  intro fuel
  cases fuel with
  | zero => rfl
  | succ f => exact scanLoop_no_flush f (findOpen_of_short (by simp)) (by decide)

theorem firstGt_append_no_gt {l : List Char} (r : List Char)
    (h : ∀ c ∈ l, c ≠ '>') : firstGt (l ++ '>' :: r) = some l.length := by
  induction l with
  | nil => simp [firstGt]
  | cons c cs ih =>
    have hc : c ≠ '>' := h c (by simp)
    have hcs : ∀ x ∈ cs, x ≠ '>' := fun x hx => h x (by simp [hx])
    simp [firstGt, hc, ih hcs]

theorem matchEndAt_marker (attr rest : List Char)
    (hattr1 : ∀ c ∈ attr, c ≠ '>')
    (hattr2 : ∀ c ∈ attr.take 1, isPySpace c = true) :
    matchEndAt (tagStart ++ attr ++ '>' :: rest) 0 =
      some (tagStart ++ attr ++ ['>']).length := by
  unfold matchEndAt
  have hpref : tagStart.isPrefixOf ((tagStart ++ attr ++ '>' :: rest).drop 0)
      = true := by
    rw [List.drop_zero]
    exact List.isPrefixOf_iff_prefix.mpr ⟨attr ++ '>' :: rest, by simp⟩
  rw [if_pos hpref]
  have hdrop : (tagStart ++ attr ++ '>' :: rest).drop (0 + 16) =
      attr ++ '>' :: rest := by
    have h16 : (0 : Nat) + 16 = tagStart.length := rfl
    rw [h16, List.append_assoc, List.drop_left]
  rw [hdrop]
  cases attr with
  | nil => simp [tagStart_length]
  | cons a as =>
    have ha1 : a ≠ '>' := hattr1 a (by simp)
    have ha2 : isPySpace a = true := hattr2 a (by simp)
    have has : ∀ c ∈ as, c ≠ '>' := fun c hc => hattr1 c (by simp [hc])
    simp only [List.cons_append, ha1, if_neg, ha2, if_pos,
      firstGt_append_no_gt rest has, if_false, ite_true, ite_false,
      Bool.false_eq_true, tagStart_length]
    simp [tagStart_length, Option.some.injEq]
    omega

theorem findOpen_marker (attr rest : List Char)
    (hattr1 : ∀ c ∈ attr, c ≠ '>')
    (hattr2 : ∀ c ∈ attr.take 1, isPySpace c = true) :
    findOpen (tagStart ++ attr ++ '>' :: rest) =
      some (0, (tagStart ++ attr ++ ['>']).length) := by
  unfold findOpen goOpen
  rw [matchEndAt_marker attr rest hattr1 hattr2]

/-- The end marker has no non-trivial border: no proper suffix of it is
also one of its prefixes, so an occurrence of the end marker can never
straddle the boundary between directive content and an appended end
marker. -/
theorem endMarker_no_border : ∀ j < 18, 1 ≤ j →
    endMarker.drop j ≠ endMarker.take (18 - j) := by decide

theorem goClose_first {s : List Char} :
    ∀ (fuel i c : Nat), i ≤ c → c < i + fuel →
      endMarker.isPrefixOf (s.drop c) = true →
      (∀ j, i ≤ j → j < c → endMarker.isPrefixOf (s.drop j) = false) →
      goClose s i fuel = some c := by
  intro fuel
  induction fuel with
  | zero => intro i c h1 h2 _ _; omega
  | succ f ih =>
    intro i c h1 h2 hc hno
    unfold goClose
    by_cases hi : i = c
    · subst hi
      rw [if_pos hc]
    · have hlt : i < c := Nat.lt_of_le_of_ne h1 hi
      rw [if_neg (by rw [hno i le_rfl hlt]; simp)]
      exact ih (i + 1) c hlt (by omega) hc (fun j hj1 hj2 => hno j (by omega) hj2)

theorem findClose_boundary {content : List Char}
    (hcontent : ∀ i < content.length,
      endMarker.isPrefixOf (content.drop i) = false) :
    findClose (content ++ endMarker) = some content.length := by
  unfold findClose
  apply goClose_first _ 0 content.length (Nat.zero_le _)
  · simp only [List.length_append, endMarker_length, Nat.zero_add]
    omega
  · rw [List.drop_left]
    exact List.isPrefixOf_iff_prefix.mpr List.prefix_rfl
  · intro j _ hj
    cases hb : endMarker.isPrefixOf ((content ++ endMarker).drop j) with
    | false => rfl
    | true =>
      exfalso
      have hpre := List.isPrefixOf_iff_prefix.mp hb
      have hdropj : (content ++ endMarker).drop j =
          content.drop j ++ endMarker := by
        rw [List.drop_append_eq_append_drop]
        have hz : j - content.length = 0 := by omega
        rw [hz, List.drop_zero]
      rw [hdropj] at hpre
      have hDlen : (content.drop j).length = content.length - j := by simp
      by_cases hbig : 18 ≤ (content.drop j).length
      · have heq := List.prefix_iff_eq_take.mp hpre
        rw [endMarker_length, List.take_append_eq_append_take] at heq
        have hz : 18 - (content.drop j).length = 0 := by omega
        rw [hz, List.take_zero, List.append_nil] at heq
        have hpre2 : endMarker <+: content.drop j := by
          rw [heq]
          exact List.take_prefix _ _
        have := hcontent j hj
        rw [List.isPrefixOf_iff_prefix.mpr hpre2] at this
        exact absurd this (by simp)
      · obtain ⟨t, ht⟩ := hpre
        have hd := congrArg (List.drop (content.drop j).length) ht
        rw [List.drop_append_eq_append_drop, List.drop_append_eq_append_drop]
          at hd
        have hz1 : (content.drop j).length - endMarker.length = 0 := by
          rw [endMarker_length]; omega
        have hz2 : (content.drop j).length - (content.drop j).length = 0 := by
          omega
        rw [hz1, hz2, List.drop_zero, List.drop_length, List.nil_append] at hd
        have hpre2 : endMarker.drop (content.drop j).length <+: endMarker :=
          ⟨t.drop 0, by rw [List.drop_zero]; exact hd⟩
        have heq := List.prefix_iff_eq_take.mp hpre2
        have hlen2 : (endMarker.drop (content.drop j).length).length =
            18 - (content.drop j).length := by simp [endMarker_length]
        rw [hlen2] at heq
        exact endMarker_no_border (content.drop j).length (by omega)
          (by omega) heq

theorem scanLoop_close (marker content : List Char) (fuel : Nat)
    (hcontent : ∀ i < content.length,
      endMarker.isPrefixOf (content.drop i) = false) :
    scanLoop (fuel + 1) (some marker) (content ++ endMarker) =
      ([.draft marker content], none, []) := by
  unfold scanLoop
  rw [findClose_boundary hcontent]
  have h1 : (content ++ endMarker).take content.length = content :=
    List.take_left _ _
  have h2 : (content ++ endMarker).drop (content.length + endMarker.length)
      = [] := List.drop_eq_nil_of_le (by simp)
  dsimp only []
  rw [h1, h2, scanLoop_empty_buffer]

theorem scanLoop_open_close (attr content : List Char) (fuel : Nat)
    (hattr1 : ∀ c ∈ attr, c ≠ '>')
    (hattr2 : ∀ c ∈ attr.take 1, isPySpace c = true)
    (hcontent : ∀ i < content.length,
      endMarker.isPrefixOf (content.drop i) = false) :
    scanLoop (fuel + 1 + 1) none
        (tagStart ++ attr ++ '>' :: (content ++ endMarker)) =
      ([.draft (tagStart ++ attr ++ ['>']) content], none, []) := by
  unfold scanLoop
  rw [findOpen_marker attr (content ++ endMarker) hattr1 hattr2]
  have hassoc : tagStart ++ attr ++ '>' :: (content ++ endMarker) =
      (tagStart ++ attr ++ ['>']) ++ (content ++ endMarker) := by simp
  have hm : ((tagStart ++ attr ++ '>' :: (content ++ endMarker)).drop 0).take
      ((tagStart ++ attr ++ ['>']).length - 0) = tagStart ++ attr ++ ['>'] := by
    rw [List.drop_zero, Nat.sub_zero, hassoc, List.take_left]
  have hd : (tagStart ++ attr ++ '>' :: (content ++ endMarker)).drop
      (tagStart ++ attr ++ ['>']).length = content ++ endMarker := by
    rw [hassoc, List.drop_left]
  dsimp only []
  rw [hm, hd, scanLoop_close (tagStart ++ attr ++ ['>']) content fuel hcontent]
  simp

/-- The scanner on the two deltas carrying a split, closed directive from a
clean state: the first delta holds a fragment of the start marker, the
second the remainder of the marker, the content and the end marker.  The
output is the single directive span and a clean state. -/
theorem scanDeltas_split (attr content : List Char) (k : Nat)
    (hattr1 : ∀ c ∈ attr, c ≠ '>')
    (hattr2 : ∀ c ∈ attr.take 1, isPySpace c = true)
    (hcontent : ∀ i < content.length,
      endMarker.isPrefixOf (content.drop i) = false)
    (hk : k ≤ 16 ∨ attr = []) :
    scanDeltas [(tagStart ++ attr ++ ['>']).take k,
        (tagStart ++ attr ++ ['>']).drop k ++ content ++ endMarker]
        ⟨none, []⟩ =
      ([.draft (tagStart ++ attr ++ ['>']) content], ⟨none, []⟩) := by
  by_cases hk16 : k ≤ 16
  · have htake : (tagStart ++ attr ++ ['>']).take k = tagStart.take k := by
      rw [List.append_assoc, List.take_append_eq_append_take]
      have hz : k - tagStart.length = 0 := by rw [tagStart_length]; omega
      rw [hz]
      simp
    have hlen1 : (tagStart.take k).length = k := by
      rw [List.length_take, tagStart_length]
      omega
    have hd1 : feedDelta ⟨none, []⟩ ((tagStart ++ attr ++ ['>']).take k) =
        ([], ⟨none, tagStart.take k⟩) := by
      rw [htake]
      unfold feedDelta processBuffer
      simp only [List.nil_append]
      rw [scanLoop_no_flush (tagStart.take k).length
        (findOpen_of_short (by omega)) (overlapLen_tagStart_take hk16)]
    have hbuf : tagStart.take k ++
        ((tagStart ++ attr ++ ['>']).drop k ++ content ++ endMarker) =
        tagStart ++ attr ++ '>' :: (content ++ endMarker) := by
      rw [← htake]
      simp only [← List.append_assoc, List.take_append_drop]
      simp [List.append_assoc]
    have hd2 : feedDelta ⟨none, tagStart.take k⟩
        ((tagStart ++ attr ++ ['>']).drop k ++ content ++ endMarker) =
        ([.draft (tagStart ++ attr ++ ['>']) content], ⟨none, []⟩) := by
      unfold feedDelta processBuffer
      simp only []
      rw [hbuf]
      obtain ⟨f, hf⟩ : ∃ f,
          (tagStart ++ attr ++ '>' :: (content ++ endMarker)).length + 1 =
            f + 1 + 1 :=
        ⟨(tagStart ++ attr ++ '>' :: (content ++ endMarker)).length - 1,
          by simp only [List.length_append, List.length_cons, tagStart_length]
             omega⟩
      rw [hf, scanLoop_open_close attr content f hattr1 hattr2 hcontent]
    simp only [scanDeltas]
    rw [hd1]
    dsimp only []
    rw [hd2]
    simp
  · have hattr : attr = [] := hk.resolve_left hk16
    subst hattr
    have hklen : (tagStart ++ [] ++ ['>']).length ≤ k := by
      simp [tagStart_length]
      omega
    have htake : (tagStart ++ [] ++ ['>']).take k = tagStart ++ [] ++ ['>'] :=
      List.take_of_length_le hklen
    have hdrop : (tagStart ++ [] ++ ['>']).drop k = [] :=
      List.drop_eq_nil_of_le hklen
    have hd1 : feedDelta ⟨none, []⟩ (tagStart ++ [] ++ ['>']) =
        ([], ⟨some (tagStart ++ [] ++ ['>']), []⟩) := by decide
    have hd2 : feedDelta ⟨some (tagStart ++ [] ++ ['>']), []⟩
        ([] ++ content ++ endMarker) =
        ([.draft (tagStart ++ [] ++ ['>']) content], ⟨none, []⟩) := by
      unfold feedDelta processBuffer
      simp only [List.nil_append]
      rw [scanLoop_close (tagStart ++ [] ++ ['>']) content
        (content ++ endMarker).length hcontent]
    rw [htake, hdrop]
    simp only [scanDeltas]
    rw [hd1]
    dsimp only []
    rw [hd2]
    simp

theorem scanDeltas_append (ds1 ds2 : List (List Char)) :
    ∀ st, scanDeltas (ds1 ++ ds2) st =
      ((scanDeltas ds1 st).1 ++ (scanDeltas ds2 (scanDeltas ds1 st).2).1,
        (scanDeltas ds2 (scanDeltas ds1 st).2).2) := by
  induction ds1 with
  | nil => intro st; simp [scanDeltas]
  | cons d ds ih =>
    intro st
    simp only [List.cons_append, scanDeltas, List.append_eq]
    rw [ih]
    simp [List.append_assoc]

/-- C3 (amended).  A start marker split across two consecutive deltas is
detected as a single directive whenever the directive is closed by its end
marker and the fragment in the first delta is a prefix of the literal
`<partner_message` — which is every split point when the marker carries no
attributes.  This holds for every delta sequence of that shape: any
preceding deltas that leave the scanner clean (no retained partial marker),
any whitespace-led `>`-free attribute text, any end-marker-free directive
content, any split point as above, and any trailing deltas.  The directive
is emitted exactly once as a PartnerDraft span — reaching the client only
through the `tool_start`/`partner_message`/`tool_done` envelope, never as a
`token` frame — and the surrounding deltas scan exactly as they would
alone.  (A split strictly inside an attribute section is not detected, per
the counterexample; an unclosed directive flushes its content as plain
text.) -/
theorem c3_split_detection (pre rest : List (List Char))
    (attr content : List Char) (k : Nat)
    (hpre : (scanDeltas pre ⟨none, []⟩).2 = ⟨none, []⟩)
    (hattr1 : ∀ c ∈ attr, c ≠ '>')
    (hattr2 : ∀ c ∈ attr.take 1, isPySpace c = true)
    (hcontent : ∀ i < content.length,
      endMarker.isPrefixOf (content.drop i) = false)
    (hk : k ≤ 16 ∨ attr = []) :
    scanAll (pre ++ ((tagStart ++ attr ++ ['>']).take k ::
        ((tagStart ++ attr ++ ['>']).drop k ++ content ++ endMarker) ::
        rest)) =
      ((scanDeltas pre ⟨none, []⟩).1 ++
        .draft (tagStart ++ attr ++ ['>']) content ::
          (scanDeltas rest ⟨none, []⟩).1,
        (scanDeltas rest ⟨none, []⟩).2) ∧
    framesOfSpans (finalSpans [(tagStart ++ attr ++ ['>']).take k,
        (tagStart ++ attr ++ ['>']).drop k ++ content ++ endMarker]) =
      [.toolStart, .partnerMessage content, .toolDone] ∧
    buildSegs (finalSpans [(tagStart ++ attr ++ ['>']).take k,
        (tagStart ++ attr ++ ['>']).drop k ++ content ++ endMarker]) [] =
      [.partnerDraft content] := by
  have hcore := scanDeltas_split attr content k hattr1 hattr2 hcontent hk
  have hmid : ((tagStart ++ attr ++ ['>']).take k ::
      ((tagStart ++ attr ++ ['>']).drop k ++ content ++ endMarker) :: rest) =
      [(tagStart ++ attr ++ ['>']).take k,
        (tagStart ++ attr ++ ['>']).drop k ++ content ++ endMarker] ++ rest :=
    rfl
  have hfin : finalSpans [(tagStart ++ attr ++ ['>']).take k,
      (tagStart ++ attr ++ ['>']).drop k ++ content ++ endMarker] =
      [.draft (tagStart ++ attr ++ ['>']) content] := by
    unfold finalSpans scanAll
    rw [hcore]
    simp
  refine ⟨?_, ?_, ?_⟩
  · unfold scanAll
    rw [scanDeltas_append, hpre, hmid, scanDeltas_append, hcore]
    simp
  · rw [hfin]
    rfl
  · rw [hfin]
    rfl

/-- C3 (witness): the amended theorem at the stream
`["Hello ", "<partner_", "message to=mom>call mom</partner_message>",
" bye"]` — the attributed marker `<partner_message to=mom>` split nine
characters in, preceded and followed by plain-text deltas. -/
theorem c3_split_detection_witness :
    scanAll (["Hello ".data] ++
        ((tagStart ++ " to=mom".data ++ ['>']).take 9 ::
          ((tagStart ++ " to=mom".data ++ ['>']).drop 9 ++ "call mom".data ++
            endMarker) :: [" bye".data])) =
      ((scanDeltas ["Hello ".data] ⟨none, []⟩).1 ++
        .draft (tagStart ++ " to=mom".data ++ ['>']) "call mom".data ::
          (scanDeltas [" bye".data] ⟨none, []⟩).1,
        (scanDeltas [" bye".data] ⟨none, []⟩).2) ∧
    framesOfSpans (finalSpans [(tagStart ++ " to=mom".data ++ ['>']).take 9,
        (tagStart ++ " to=mom".data ++ ['>']).drop 9 ++ "call mom".data ++
          endMarker]) =
      [.toolStart, .partnerMessage "call mom".data, .toolDone] ∧
    buildSegs (finalSpans [(tagStart ++ " to=mom".data ++ ['>']).take 9,
        (tagStart ++ " to=mom".data ++ ['>']).drop 9 ++ "call mom".data ++
          endMarker]) [] =
      [.partnerDraft "call mom".data] :=
  c3_split_detection ["Hello ".data] [" bye".data] " to=mom".data
    "call mom".data 9 (by decide) (by decide) (by decide) (by decide)
    (by decide)

/-! ## Claim C1: terminal frames -/

/-- C1 (the claim is the spec's intent; the code violates it).  When the
producer reports an error and the fallback call raises, `iter_sse` yields
the `error` frame and `break`s (chat_router.py lines 365-366) — but the
post-loop code (lines 421-439) still runs, flushing the retained buffer as a
`token` frame and yielding `done`.  The stream thus emits frames after the
`error` frame, ending in a second terminal frame. -/
theorem c1_error_then_done :
    iterSSE "sess".data none [.delta "hi<partner_".data, .perror "boom".data] =
      [.session "sess".data, .token "hi".data, .errorF "boom".data,
        .token "<partner_".data, .done] := by decide

/-! ## Claim C6: the example scenario -/

/-- C6.  For the input deltas `["Hello ", "<partner_", "message>call mom",
"</partner_message> bye"]` the stream emits exactly the frames
`token "Hello "`, `tool_start`, `partner_message "call mom"`, `tool_done`,
`token " bye"`, `done`, and the persisted segment list is
`[Text "Hello ", PartnerDraft "call mom", Text " bye"]`. -/
theorem c6_example_scenario :
    (consume none [PEvent.delta "Hello ".data, PEvent.delta "<partner_".data,
        PEvent.delta "message>call mom".data,
        PEvent.delta "</partner_message> bye".data] ⟨none, []⟩).frames =
      [.token "Hello ".data, .toolStart, .partnerMessage "call mom".data,
        .toolDone, .token " bye".data, .done] ∧
    persistedSegments
        (consume none [PEvent.delta "Hello ".data, PEvent.delta "<partner_".data,
          PEvent.delta "message>call mom".data,
          PEvent.delta "</partner_message> bye".data] ⟨none, []⟩).spans =
      some [.text "Hello ".data, .partnerDraft "call mom".data,
        .text " bye".data] := by
  constructor <;> decide

/-! ## Claim C9: the fallback coordinator -/

theorem consume_fbCalls_of_noerr (fb : FallbackResult) :
    ∀ events : List PEvent, (∀ e ∈ events, e.isErr = false) →
      ∀ st, (consume fb events st).fbCalls = 0 := by
  intro events
  induction events with
  | nil => intro _ st; simp [consume]
  | cons ev rest ih =>
    intro h st
    have hrest : ∀ e ∈ rest, e.isErr = false :=
      fun e he => h e (List.mem_cons_of_mem _ he)
    cases ev with
    | rid r => simp [consume, ih hrest]
    | delta d => simp [consume, ih hrest]
    | perror m => exact absurd (h _ (List.mem_cons_self _ _)) (by simp [PEvent.isErr])

theorem consume_fbCalls_err (fb : FallbackResult) :
    ∀ (pre : List PEvent) (m : List Char), (∀ e ∈ pre, e.isErr = false) →
      ∀ st, (consume fb (pre ++ [.perror m]) st).fbCalls = 1 := by
  intro pre
  induction pre with
  | nil =>
    intro m _ st
    cases fb with
    | none => simp [consume]
    | some p =>
      obtain ⟨ro, tx⟩ := p
      simp [consume]
  | cons ev rest ih =>
    intro m h st
    have hrest : ∀ e ∈ rest, e.isErr = false :=
      fun e he => h e (List.mem_cons_of_mem _ he)
    cases ev with
    | rid r => simp [consume, ih m hrest]
    | delta d => simp [consume, ih m hrest]
    | perror m2 => exact absurd (h _ (List.mem_cons_self _ _)) (by simp [PEvent.isErr])

theorem consume_errorF_mem :
    ∀ (pre : List PEvent) (m : List Char), (∀ e ∈ pre, e.isErr = false) →
      ∀ st, Frame.errorF m ∈ (consume none (pre ++ [.perror m]) st).frames := by
  intro pre
  induction pre with
  | nil => intro m _ st; simp [consume]
  | cons ev rest ih =>
    intro m h st
    have hrest : ∀ e ∈ rest, e.isErr = false :=
      fun e he => h e (List.mem_cons_of_mem _ he)
    cases ev with
    | rid r =>
      simp only [consume, List.mem_cons]
      exact Or.inr (ih m hrest st)
    | delta d =>
      simp only [consume, List.mem_append]
      exact Or.inr (ih m hrest ((feedDelta st d).2))
    | perror m2 => exact absurd (h _ (List.mem_cons_self _ _)) (by simp [PEvent.isErr])

/-- C9 (counterexample to the claim as stated).  The claim says that when
the fallback call raises "the stream terminates with an `error` frame": it
does emit the `error` frame with the original producer message, but — the
defect recorded under C1 — the post-loop epilogue then yields `done`, so the
stream terminates with `done`, not with the `error` frame. -/
theorem c9_terminal_cex :
    (consume none [PEvent.perror "err2".data] ⟨none, []⟩).frames =
      [.errorF "err2".data, .done] := by decide

/-- C9 (amended).  The fallback runs only when the producer reports an
error: with no error event there are zero fallback calls; with a
producer-terminated stream (error last) there is exactly one, whatever its
outcome; and when the fallback raises, the emitted `error` frame carries the
original producer error message (the fallback's own exception is only
logged) — followed, due to the defect recorded under C1, by the epilogue's
buffered-token flush and `done` rather than terminating the stream. -/
theorem c9_fallback_contract (fb : FallbackResult) (pre : List PEvent)
    (m : List Char) (hpre : ∀ e ∈ pre, e.isErr = false) :
    (∀ st, (consume fb pre st).fbCalls = 0) ∧
    (∀ st, (consume fb (pre ++ [.perror m]) st).fbCalls = 1) ∧
    Frame.errorF m ∈ (consume none (pre ++ [.perror m]) ⟨none, []⟩).frames :=
  ⟨consume_fbCalls_of_noerr fb pre hpre, consume_fbCalls_err fb pre m hpre,
    consume_errorF_mem pre m hpre ⟨none, []⟩⟩

/-- C9 (witness): the amended theorem at a concrete one-delta stream with a
successful fallback for the call counts, and a raising fallback for the
error-payload clause. -/
theorem c9_fallback_contract_witness :
    (consume (some (none, "fb".data)) [PEvent.delta "a".data] ⟨none, []⟩).fbCalls
        = 0 ∧
      (consume (some (none, "fb".data))
          ([PEvent.delta "a".data] ++ [.perror "boom2".data]) ⟨none, []⟩).fbCalls
        = 1 ∧
      Frame.errorF "boom2".data ∈
        (consume none ([PEvent.delta "a".data] ++ [.perror "boom2".data])
          ⟨none, []⟩).frames :=
  ⟨(c9_fallback_contract (some (none, "fb".data)) [PEvent.delta "a".data]
      "boom2".data (by decide)).1 ⟨none, []⟩,
    (c9_fallback_contract (some (none, "fb".data)) [PEvent.delta "a".data]
      "boom2".data (by decide)).2.1 ⟨none, []⟩,
    (c9_fallback_contract none [PEvent.delta "a".data]
      "boom2".data (by decide)).2.2⟩

/-! ## Claim C10: the partner-message notification never posts -/

theorem pmnLoop_eq_nil : ∀ l : List TokenEntry, pmnLoop l = [] := by
  intro l
  induction l with
  | nil => rfl
  | cons t rest ih => simp [pmnLoop, ih]

/-- C10.  `send_partner_message_notification_to_user` performs no APNs post
for any input: its per-token loop only skips invalid or disabled entries and
its body contains no `_post_apns` call, so no device is ever posted to. -/
theorem c10_no_apns_post (recipientUserId sessionId : Nat) (preview : List Char)
    (tokens : List TokenEntry) :
    sendPartnerMessageNotificationToUser recipientUserId sessionId preview
      tokens = [] := by
  cases tokens with
  | nil => rfl
  | cons t rest => exact pmnLoop_eq_nil (t :: rest)

/-! ## Lemmas: the acceptance protocol -/

theorem resolve_req (st : PState) (rw : Option Nat) :
    (resolveRecipientSession st rw).2.req = st.req := by
  unfold resolveRecipientSession
  dsimp only []
  repeat' split
  all_goals rfl

theorem resolve_savedMessages (st : PState) (rw : Option Nat) :
    (resolveRecipientSession st rw).2.savedMessages = st.savedMessages := by
  unfold resolveRecipientSession
  dsimp only []
  repeat' split
  all_goals rfl

theorem claimAccept_won {req : ReqRecord} {now sid : Nat}
    (h : (claimAccept req now sid).2 = true) :
    (claimAccept req now sid).1.status = .accepted ∧
      (claimAccept req now sid).1.recipientSessionId = some sid ∧
      (claimAccept req now sid).1.acceptedAt = some now ∧
      (claimAccept req now sid).1.recipientUserId = req.recipientUserId ∧
      (claimAccept req now sid).1.createdMessageId = req.createdMessageId ∧
      (req.status = .pending ∨ req.status = .delivered) := by
  by_cases hpd : req.status = .pending ∨ req.status = .delivered
  · simp [claimAccept, hpd]
  · simp [claimAccept, hpd] at h

theorem claimAccept_lost {req : ReqRecord} {now sid : Nat}
    (h : (claimAccept req now sid).2 = false) :
    (claimAccept req now sid).1 = req ∧
      ¬(req.status = .pending ∨ req.status = .delivered) := by
  by_cases hpd : req.status = .pending ∨ req.status = .delivered
  · simp [claimAccept, hpd] at h
  · simp [claimAccept, hpd]

theorem claimAccept_iff (req : ReqRecord) (now sid : Nat) :
    (claimAccept req now sid).2 = true ↔
      req.status = .pending ∨ req.status = .delivered := by
  by_cases hpd : req.status = .pending ∨ req.status = .delivered <;>
    simp [claimAccept, hpd]

theorem claimAccept_of_accepted {req : ReqRecord} (now sid : Nat)
    (h : req.status = .accepted) : claimAccept req now sid = (req, false) := by
  simp [claimAccept, h]

theorem claimAccept_of_pd {req : ReqRecord} (now sid : Nat)
    (h : req.status = .pending ∨ req.status = .delivered) :
    claimAccept req now sid =
      ({ req with
          status := .accepted
          acceptedAt := some now
          recipientSessionId := some sid }, true) := by
  simp [claimAccept, h]

theorem accept_not_recipient {st : PState} {callerId now : Nat}
    {rw ra : Option Nat} (h : st.req.recipientUserId ≠ callerId) :
    accept st callerId now rw ra = ⟨.error (), st, false⟩ := by
  simp [accept, h]

theorem accept_already {st : PState} {callerId now : Nat} {rw ra : Option Nat}
    {s : Nat} (hc : st.req.recipientUserId = callerId)
    (h2 : st.req.status = .accepted)
    (h3 : st.req.recipientSessionId = some s) :
    accept st callerId now rw ra = ⟨.ok s, st, false⟩ := by
  unfold accept
  rw [if_neg (by simp [hc])]
  rw [dif_pos ⟨h2, by simp [h3]⟩]
  simp only [h3, Option.get_some]

theorem accept_step (st : PState) (callerId now : Nat) (rw ra : Option Nat)
    (hc : st.req.recipientUserId = callerId)
    (h2 : ¬(st.req.status = .accepted ∧ st.req.recipientSessionId.isSome)) :
    accept st callerId now rw ra =
      if (claimAccept (raceApply ra st.req now) now
            (resolveRecipientSession st rw).1).2 then
        ⟨.ok (resolveRecipientSession st rw).1,
          finalizeAcceptance
            { (resolveRecipientSession st rw).2 with
                req := (claimAccept (raceApply ra st.req now) now
                  (resolveRecipientSession st rw).1).1 }
            (resolveRecipientSession st rw).1, true⟩
      else
        ⟨.ok (resolveRecipientSession st rw).1,
          { (resolveRecipientSession st rw).2 with
              req := (claimAccept (raceApply ra st.req now) now
                (resolveRecipientSession st rw).1).1 }, false⟩ := by
  unfold accept
  rw [if_neg (by simp [hc]), dif_neg h2]
  dsimp only []
  rw [resolve_req]

theorem finalize_keeps (st : PState) (recip : Nat)
    (h1 : st.req.status = .accepted)
    (h2 : st.req.recipientSessionId = some recip) :
    (finalizeAcceptance st recip).req.status = .accepted ∧
      (finalizeAcceptance st recip).req.recipientSessionId = some recip ∧
      (finalizeAcceptance st recip).req.recipientUserId =
        st.req.recipientUserId ∧
      (finalizeAcceptance st recip).req.acceptedAt = st.req.acceptedAt := by
  unfold finalizeAcceptance
  split
  · exact ⟨h1, h2, rfl, rfl⟩
  · simp [markAcceptedAndAttach]

theorem statusRank_le_two (s : RStatus) : statusRank s ≤ 2 := by
  cases s <;> simp [statusRank]

theorem statusRank_eq_two {s : RStatus} (h : statusRank s = 2) :
    s = .accepted := by
  cases s <;> simp [statusRank] at h ⊢

theorem claimAccept_mono (req : ReqRecord) (now sid : Nat) :
    statusRank req.status ≤ statusRank (claimAccept req now sid).1.status := by
  by_cases hpd : req.status = .pending ∨ req.status = .delivered
  · simp only [claimAccept_of_pd now sid hpd]
    exact statusRank_le_two _
  · simp [claimAccept, hpd]

theorem raceApply_mono (ra : Option Nat) (req : ReqRecord) (now : Nat) :
    statusRank req.status ≤ statusRank (raceApply ra req now).status := by
  cases ra with
  | none => exact le_refl _
  | some s2 => exact claimAccept_mono req now s2

theorem raceApply_cases (ra : Option Nat) (req : ReqRecord) (now : Nat) :
    raceApply ra req now = req ∨
      ((req.status = .pending ∨ req.status = .delivered) ∧
        (raceApply ra req now).status = .accepted ∧
        (raceApply ra req now).recipientSessionId.isSome ∧
        (raceApply ra req now).acceptedAt = some now ∧
        (raceApply ra req now).recipientUserId = req.recipientUserId) := by
  cases ra with
  | none => exact Or.inl rfl
  | some s2 =>
    by_cases hpd : req.status = .pending ∨ req.status = .delivered
    · refine Or.inr ⟨hpd, ?_⟩
      simp [raceApply, claimAccept_of_pd now s2 hpd]
    · left
      simp [raceApply, claimAccept, hpd]

theorem finalize_status {st : PState} {recip : Nat}
    (h : st.req.status = .accepted) :
    (finalizeAcceptance st recip).req.status = .accepted := by
  unfold finalizeAcceptance
  split
  · exact h
  · simp [markAcceptedAndAttach]

theorem accept_mono (st : PState) (callerId now : Nat) (rw ra : Option Nat) :
    statusRank st.req.status ≤
      statusRank (accept st callerId now rw ra).state.req.status := by
  by_cases hr : st.req.recipientUserId ≠ callerId
  · rw [accept_not_recipient hr]
  · push_neg at hr
    by_cases h2 : st.req.status = .accepted ∧ st.req.recipientSessionId.isSome
    · obtain ⟨ha, hs⟩ := h2
      obtain ⟨s, hs'⟩ := Option.isSome_iff_exists.mp hs
      rw [accept_already hr ha hs']
    · rw [accept_step st callerId now rw ra hr h2]
      by_cases hwin : (claimAccept (raceApply ra st.req now) now
          (resolveRecipientSession st rw).1).2 = true
      · rw [if_pos hwin]
        obtain ⟨hst, _⟩ := claimAccept_won hwin
        simp only []
        rw [finalize_status hst]
        exact statusRank_le_two _
      · rw [if_neg hwin]
        simp only [Bool.not_eq_true] at hwin
        obtain ⟨heq, _⟩ := claimAccept_lost hwin
        simp only [heq]
        exact raceApply_mono ra st.req now

theorem applyOp_mono (st : PState) (op : POp) :
    statusRank st.req.status ≤ statusRank (applyOp st op).req.status := by
  cases op with
  | opMarkDelivered =>
    by_cases h : st.req.status = .pending <;>
      simp [applyOp, markDelivered, h, statusRank]
  | opStreamAttach => simp [applyOp, partnerStreamAttach, attachOnPending]
  | opAccept callerId now rw ra => exact accept_mono st callerId now rw ra

theorem applyOp_accepted_stays {st : PState} (op : POp)
    (h : st.req.status = .accepted) :
    (applyOp st op).req.status = .accepted := by
  have h1 := applyOp_mono st op
  rw [h] at h1
  exact statusRank_eq_two (Nat.le_antisymm (statusRank_le_two _) h1)

theorem accept_won_of (st : PState) (callerId now : Nat) (rw ra : Option Nat)
    (h : (accept st callerId now rw ra).won = true) :
    (accept st callerId now rw ra).state.req.status = .accepted := by
  by_cases hr : st.req.recipientUserId ≠ callerId
  · rw [accept_not_recipient hr] at h
    exact absurd h (by simp)
  · push_neg at hr
    by_cases h2 : st.req.status = .accepted ∧ st.req.recipientSessionId.isSome
    · obtain ⟨ha, hs⟩ := h2
      obtain ⟨s, hs'⟩ := Option.isSome_iff_exists.mp hs
      rw [accept_already hr ha hs'] at h
      exact absurd h (by simp)
    · rw [accept_step st callerId now rw ra hr h2] at h ⊢
      by_cases hwin : (claimAccept (raceApply ra st.req now) now
          (resolveRecipientSession st rw).1).2 = true
      · rw [if_pos hwin]
        obtain ⟨hst, _⟩ := claimAccept_won hwin
        exact finalize_status hst
      · rw [if_neg hwin] at h
        exact absurd h (by simp)

theorem accept_no_win_of_accepted (st : PState) (callerId now : Nat)
    (rw ra : Option Nat) (h : st.req.status = .accepted) :
    (accept st callerId now rw ra).won = false := by
  by_cases hr : st.req.recipientUserId ≠ callerId
  · rw [accept_not_recipient hr]
  · push_neg at hr
    by_cases h2 : st.req.status = .accepted ∧ st.req.recipientSessionId.isSome
    · obtain ⟨ha, hs⟩ := h2
      obtain ⟨s, hs'⟩ := Option.isSome_iff_exists.mp hs
      rw [accept_already hr ha hs']
    · rw [accept_step st callerId now rw ra hr h2]
      have hra : (raceApply ra st.req now).status = .accepted := by
        rcases raceApply_cases ra st.req now with heq | ⟨hpd, _⟩
        · rw [heq]; exact h
        · rcases hpd with hp | hp <;> rw [h] at hp <;> exact absurd hp (by simp)
      rw [claimAccept_of_accepted now _ hra]
      simp

theorem opWin_of_accepted {st : PState} (op : POp)
    (h : st.req.status = .accepted) : opWin st op = 0 := by
  cases op with
  | opMarkDelivered => rfl
  | opStreamAttach => rfl
  | opAccept callerId now rw ra =>
    simp [opWin, accept_no_win_of_accepted st callerId now rw ra h]

theorem winCount_of_accepted {st : PState} (ops : List POp)
    (h : st.req.status = .accepted) : winCount st ops = 0 := by
  induction ops generalizing st with
  | nil => rfl
  | cons op ops ih =>
    simp only [winCount, opWin_of_accepted op h,
      ih (applyOp_accepted_stays op h), Nat.add_zero]

theorem winCount_le_one (st : PState) (ops : List POp) :
    winCount st ops ≤ 1 := by
  induction ops generalizing st with
  | nil => simp [winCount]
  | cons op ops ih =>
    cases op with
    | opMarkDelivered => simpa [winCount, opWin] using ih (applyOp st .opMarkDelivered)
    | opStreamAttach => simpa [winCount, opWin] using ih (applyOp st .opStreamAttach)
    | opAccept callerId now rw ra =>
      by_cases hw : (accept st callerId now rw ra).won = true
      · have hacc := accept_won_of st callerId now rw ra hw
        have : winCount (applyOp st (.opAccept callerId now rw ra)) ops = 0 :=
          winCount_of_accepted ops (by simpa [applyOp] using hacc)
        simp [winCount, opWin, hw, this]
      · simp only [Bool.not_eq_true] at hw
        simpa [winCount, opWin, hw] using
          ih (applyOp st (.opAccept callerId now rw ra))

theorem accept_acceptedAt_change (st : PState) (callerId now : Nat)
    (rw ra : Option Nat)
    (h : (accept st callerId now rw ra).state.req.acceptedAt ≠
      st.req.acceptedAt) :
    (st.req.status = .pending ∨ st.req.status = .delivered) ∧
      (accept st callerId now rw ra).state.req.status = .accepted ∧
      (accept st callerId now rw ra).state.req.recipientSessionId.isSome := by
  by_cases hr : st.req.recipientUserId ≠ callerId
  · rw [accept_not_recipient hr] at h
    exact absurd rfl h
  · push_neg at hr
    by_cases h2 : st.req.status = .accepted ∧ st.req.recipientSessionId.isSome
    · obtain ⟨ha, hs⟩ := h2
      obtain ⟨s, hs'⟩ := Option.isSome_iff_exists.mp hs
      rw [accept_already hr ha hs'] at h
      exact absurd rfl h
    · rw [accept_step st callerId now rw ra hr h2] at h ⊢
      by_cases hwin : (claimAccept (raceApply ra st.req now) now
          (resolveRecipientSession st rw).1).2 = true
      · obtain ⟨hst, hsid, _, _, _, hpd⟩ := claimAccept_won hwin
        rw [if_pos hwin] at h ⊢
        obtain ⟨hf1, hf2, _, _⟩ := finalize_keeps
          { (resolveRecipientSession st rw).2 with
            req := (claimAccept (raceApply ra st.req now) now
              (resolveRecipientSession st rw).1).1 }
          (resolveRecipientSession st rw).1 hst hsid
        refine ⟨?_, hf1, by simp [hf2]⟩
        rcases raceApply_cases ra st.req now with heq | ⟨hpd', _⟩
        · rwa [heq] at hpd
        · exact hpd'
      · rw [if_neg hwin] at h ⊢
        simp only [Bool.not_eq_true] at hwin
        obtain ⟨heq, _⟩ := claimAccept_lost hwin
        simp only [heq] at h ⊢
        rcases raceApply_cases ra st.req now with heq' | ⟨hpd', hacc, hsome, hat, _⟩
        · rw [heq'] at h
          exact absurd rfl h
        · exact ⟨hpd', hacc, hsome⟩

theorem applyOp_acceptedAt_change (st : PState) (op : POp)
    (h : (applyOp st op).req.acceptedAt ≠ st.req.acceptedAt) :
    (st.req.status = .pending ∨ st.req.status = .delivered) ∧
      (applyOp st op).req.status = .accepted ∧
      (applyOp st op).req.recipientSessionId.isSome := by
  cases op with
  | opMarkDelivered =>
    exfalso
    apply h
    by_cases hp : st.req.status = .pending <;>
      simp [applyOp, markDelivered, hp]
  | opStreamAttach =>
    exfalso
    apply h
    simp [applyOp, partnerStreamAttach, attachOnPending]
  | opAccept callerId now rw ra =>
    exact accept_acceptedAt_change st callerId now rw ra h

/-! ## Claim C4: the conditional compare-and-swap -/

/-- C4.  `_claim_accept` transitions the request to `accepted` exactly when
the current stored status is `pending` or `delivered` and otherwise leaves
the record unchanged (zero rows); and when a concurrent accepter's claim
lands first (so our conditional update affects zero rows), the accept
operation still returns the resolved mapped destination conversation id and
performs no message write. -/
theorem c4_conditional_accept :
    (∀ (req : ReqRecord) (now sid : Nat),
      ((claimAccept req now sid).2 = true ↔
        req.status = .pending ∨ req.status = .delivered) ∧
      ((claimAccept req now sid).2 = false →
        (claimAccept req now sid).1 = req)) ∧
    (∀ (st : PState) (callerId now s2 : Nat) (rw : Option Nat),
      st.req.recipientUserId = callerId →
      (st.req.status = .pending ∨ st.req.status = .delivered) →
      (accept st callerId now rw (some s2)).result =
          .ok (resolveRecipientSession st rw).1 ∧
        (accept st callerId now rw (some s2)).state.savedMessages =
          st.savedMessages ∧
        (accept st callerId now rw (some s2)).won = false) := by
  constructor
  · intro req now sid
    exact ⟨claimAccept_iff req now sid, fun h => (claimAccept_lost h).1⟩
  · intro st callerId now s2 rw hc hpd
    have h2 : ¬(st.req.status = .accepted ∧ st.req.recipientSessionId.isSome) := by
      rcases hpd with h | h <;> simp [h]
    rw [accept_step st callerId now rw (some s2) hc h2]
    have hra : (raceApply (some s2) st.req now).status = .accepted := by
      simp [raceApply, claimAccept_of_pd now s2 hpd]
    rw [claimAccept_of_accepted now _ hra]
    simp [resolve_savedMessages]

/-- C4 (witness): a pending request whose claim is stolen by a concurrent
accepter attaching conversation 55. -/
theorem c4_conditional_accept_witness :
    (((claimAccept sampleReq 7 55).2 = true ↔
        sampleReq.status = .pending ∨ sampleReq.status = .delivered) ∧
      ((claimAccept sampleReq 7 55).2 = false →
        (claimAccept sampleReq 7 55).1 = sampleReq)) ∧
    ((accept sampleState 1 7 none (some 55)).result =
        .ok (resolveRecipientSession sampleState none).1 ∧
      (accept sampleState 1 7 none (some 55)).state.savedMessages =
        sampleState.savedMessages ∧
      (accept sampleState 1 7 none (some 55)).won = false) :=
  ⟨c4_conditional_accept.1 sampleReq 7 55,
    c4_conditional_accept.2 sampleState 1 7 55 none (by decide) (by decide)⟩

/-! ## Claim C7: idempotent re-accept -/

/-- C7.  Accepting a request whose stored status is already `accepted` with
a destination conversation attached returns that conversation id with the
state untouched (no status update, no message write); consequently two
successive accept calls on the same request return the same conversation id
and the second writes no additional message. -/
theorem c7_idempotent_reaccept :
    (∀ (st : PState) (callerId now : Nat) (rw ra : Option Nat) (s : Nat),
      st.req.recipientUserId = callerId → st.req.status = .accepted →
      st.req.recipientSessionId = some s →
      accept st callerId now rw ra = ⟨.ok s, st, false⟩) ∧
    (∀ (st : PState) (callerId now1 now2 : Nat),
      st.req.recipientUserId = callerId →
      (st.req.status = .accepted → st.req.recipientSessionId.isSome) →
      (accept (accept st callerId now1 none none).state callerId now2 none
          none).result = (accept st callerId now1 none none).result ∧
      (accept (accept st callerId now1 none none).state callerId now2 none
          none).state.savedMessages =
        (accept st callerId now1 none none).state.savedMessages) := by
  constructor
  · intro st callerId now rw ra s hc ha hs
    exact accept_already hc ha hs
  · intro st callerId now1 now2 hc hinv
    by_cases ha : st.req.status = .accepted
    · obtain ⟨s, hs⟩ := Option.isSome_iff_exists.mp (hinv ha)
      rw [accept_already hc ha hs, accept_already hc ha hs]
      exact ⟨rfl, rfl⟩
    · have hpd : st.req.status = .pending ∨ st.req.status = .delivered := by
        cases hst : st.req.status
        · exact Or.inl rfl
        · exact Or.inr rfl
        · exact absurd hst ha
      have h2 : ¬(st.req.status = .accepted ∧ st.req.recipientSessionId.isSome) :=
        fun hx => ha hx.1
      rw [accept_step st callerId now1 none none hc h2]
      have hwin : (claimAccept (raceApply none st.req now1) now1
          (resolveRecipientSession st none).1).2 = true := by
        rw [claimAccept_iff]
        exact hpd
      rw [if_pos hwin]
      dsimp only []
      obtain ⟨hq1, hq2, _, hq4, _, _⟩ := claimAccept_won hwin
      obtain ⟨hf1, hf2, hf3, _⟩ :=
        finalize_keeps
          { (resolveRecipientSession st none).2 with
            req := (claimAccept (raceApply none st.req now1) now1
              (resolveRecipientSession st none).1).1 }
          (resolveRecipientSession st none).1 hq1 hq2
      have huid : (finalizeAcceptance
          { (resolveRecipientSession st none).2 with
            req := (claimAccept (raceApply none st.req now1) now1
              (resolveRecipientSession st none).1).1 }
          (resolveRecipientSession st none).1).req.recipientUserId = callerId := by
        rw [hf3]
        exact hq4.trans hc
      rw [accept_already huid hf1 hf2]
      exact ⟨rfl, rfl⟩

/-- C7 (witness): re-accepting `sampleAcceptedState` returns conversation 55
unchanged, and two successive accepts of `sampleState` agree. -/
theorem c7_idempotent_reaccept_witness :
    accept sampleAcceptedState 1 7 none none =
        ⟨.ok 55, sampleAcceptedState, false⟩ ∧
      (accept (accept sampleState 1 7 none none).state 1 8 none none).result =
        (accept sampleState 1 7 none none).result ∧
      (accept (accept sampleState 1 7 none none).state 1 8 none
          none).state.savedMessages =
        (accept sampleState 1 7 none none).state.savedMessages :=
  ⟨c7_idempotent_reaccept.1 sampleAcceptedState 1 7 none none 55 (by decide)
      (by decide) (by decide),
    (c7_idempotent_reaccept.2 sampleState 1 7 8 (by decide) (by decide)).1,
    (c7_idempotent_reaccept.2 sampleState 1 7 8 (by decide) (by decide)).2⟩

/-! ## Claim C8: destination-conversation resolution -/

/-- C8.  When no destination is mapped for the request's
(relationship, source-conversation) pair, accept's resolution creates one
conversation titled by mirroring the source title, records it as the
mapping's destination, re-reads the mapping, and proceeds with an id that
always equals the mapping's recorded destination after the re-read: its own
creation when no concurrent writer intervened, otherwise the winner's id,
deleting the speculative conversation. -/
theorem c8_destination_resolution (st : PState) (row : LinkedRow)
    (rw : Option Nat) (hlink : st.link = some row)
    (hnodest : (if row.userAId = st.req.senderUserId then row.userBSession
      else row.userASession) = none) :
    (resolveRecipientSession st rw).2.createdSessions =
        st.createdSessions ++ [(st.nextId, mirrorTitle st.srcTitle)] ∧
      (resolveRecipientSession st rw).2.link.bind LinkedRow.userBSession =
        some (resolveRecipientSession st rw).1 ∧
      (rw = none →
        (resolveRecipientSession st rw).1 = st.nextId ∧
          (resolveRecipientSession st rw).2.deletedSessions =
            st.deletedSessions) ∧
      (∀ w, rw = some w → w ≠ st.nextId →
        (resolveRecipientSession st rw).1 = w ∧
          (resolveRecipientSession st rw).2.deletedSessions =
            st.deletedSessions ++ [st.nextId]) := by
  cases rw with
  | none =>
    simp [resolveRecipientSession, hlink, hnodest, updateLinkDestination]
  | some w =>
    by_cases hw : w = st.nextId
    · subst hw
      simp [resolveRecipientSession, hlink, hnodest, updateLinkDestination]
    · simp [resolveRecipientSession, hlink, hnodest, updateLinkDestination, hw]

/-- C8 (witness): resolution on `sampleState` when a concurrent writer
records conversation 77 between the write and the re-read. -/
theorem c8_destination_resolution_witness :
    (resolveRecipientSession sampleState (some 77)).2.link.bind
        LinkedRow.userBSession =
        some (resolveRecipientSession sampleState (some 77)).1 ∧
      (resolveRecipientSession sampleState (some 77)).1 = 77 ∧
      (resolveRecipientSession sampleState (some 77)).2.deletedSessions =
        sampleState.deletedSessions ++ [sampleState.nextId] :=
  ⟨(c8_destination_resolution sampleState _ (some 77) rfl (by decide)).2.1,
    ((c8_destination_resolution sampleState _ (some 77) rfl
      (by decide)).2.2.2 77 rfl (by decide)).1,
    ((c8_destination_resolution sampleState _ (some 77) rfl
      (by decide)).2.2.2 77 rfl (by decide)).2⟩

/-! ## Claim C5: status monotonicity and single-use acceptance -/

/-- C5 (counterexample).  The claim says `accepted_at` and the attached
destination-conversation identity are "never [set] while the request is
still pending or delivered" — but the partner streaming endpoint (one of the
operations the claim itself lists) attaches `recipient_session_id` via
`attach_session_and_message_on_pending` while the request's status remains
`pending` (and `accepted_at` unset). -/
theorem c5_attach_while_pending_cex :
    (partnerStreamAttach sampleState).req.status = .pending ∧
      (partnerStreamAttach sampleState).req.recipientSessionId = some 100 ∧
      (partnerStreamAttach sampleState).req.acceptedAt = none := by decide

/-- C5 (amended).  Under the program's operations (delivered-marking, the
partner streaming endpoint's attach, and accept, including concurrent-claim
and concurrent-mapping-write interference), request status is monotone along
pending → delivered → accepted; at most one accept call wins the claim along
any operation sequence; and `accepted_at` changes only in the atomic claim
update, which simultaneously moves a pending/delivered request to `accepted`
and attaches the destination conversation.  (The streaming endpoint may
however attach `recipient_session_id` earlier, while the request is still
pending — the correction forced by the counterexample.) -/
theorem c5_monotonic_single_accept :
    (∀ (st : PState) (op : POp),
      statusRank st.req.status ≤ statusRank (applyOp st op).req.status) ∧
    (∀ (st : PState) (ops : List POp), winCount st ops ≤ 1) ∧
    (∀ (st : PState) (op : POp),
      (applyOp st op).req.acceptedAt ≠ st.req.acceptedAt →
        (st.req.status = .pending ∨ st.req.status = .delivered) ∧
        (applyOp st op).req.status = .accepted ∧
        (applyOp st op).req.recipientSessionId.isSome) :=
  ⟨applyOp_mono, winCount_le_one, applyOp_acceptedAt_change⟩

/-- C5 (witness): the amended theorem at `sampleState`, with two successive
accept attempts and a first accept that sets `accepted_at`. -/
theorem c5_monotonic_single_accept_witness :
    statusRank sampleState.req.status ≤
        statusRank (applyOp sampleState POp.opStreamAttach).req.status ∧
      winCount sampleState
        [POp.opAccept 1 7 none none, POp.opAccept 1 8 none none] ≤ 1 ∧
      ((sampleState.req.status = .pending ∨
          sampleState.req.status = .delivered) ∧
        (applyOp sampleState (POp.opAccept 1 7 none none)).req.status =
          .accepted ∧
        (applyOp sampleState
          (POp.opAccept 1 7 none none)).req.recipientSessionId.isSome) :=
  ⟨c5_monotonic_single_accept.1 sampleState POp.opStreamAttach,
    c5_monotonic_single_accept.2.1 sampleState
      [POp.opAccept 1 7 none none, POp.opAccept 1 8 none none],
    c5_monotonic_single_accept.2.2 sampleState (POp.opAccept 1 7 none none)
      (by decide)⟩

end TalkToMe
